import Mathlib

/-!
# Verification of the VOT format adapter (cvat/apps/dataset_manager/formats/vot.py)

A shallow embedding of the module's two entry points, `vot_importer` and
`vot_exporter`, together with their helpers `attribute_mapping`,
`_map_attributes`, `_make_info` and `_clear_attributes`.

Modelling conventions:
* Python dicts (which preserve insertion order and have unique keys) are
  association lists `List (String × α)` with `dictGet` (first match, the only
  match for a genuine dict) and `dictSet` (update in place, or append a fresh
  key at the end) mirroring `d.get(k)` / `d[k] = v`.
* Python numbers written to and re-parsed from the text files are rationals:
  `repr`/`float` round-trips a Python float exactly, so the text layer is
  modelled by carrying the numeric value itself.
* A line of `groundtruth.txt` is a `GTLine`: `nanLine` stands for any line
  containing the substring "nan" (the exporter writes exactly
  "nan,nan,nan,nan,nan,nan,nan,nan", which contains it), `fields vs` for a
  nan-free line whose comma-separated entries `float` parses to `vs`.
* Failure paths (TypeError on `None[-1]`, IndexError on list subscripts, the
  `assert` on the missing ground-truth file) are `Except.error`; the Python
  functions return `None` on success, so success carries the data handed to
  the caller or written into the archive.
* File IO, zip packing and image encoding are outside the model: an archive
  is the record of the text artifacts written into it, and the importer takes
  `none` for a byte stream that is not a valid zip (the `is_zipfile` guard).
-/

namespace VotFormat

/-- `d.get(k)` on an insertion-ordered dict: the value at the first (only)
occurrence of the key. -/
def dictGet (m : List (String × α)) (k : String) : Option α :=
  match m with
  | [] => none
  | (k2, v) :: rest => if k2 = k then some v else dictGet rest k

/-- `d[k] = v` on an insertion-ordered dict: replace the value at an existing
key in place, or append a fresh key at the end. -/
def dictSet (m : List (String × α)) (k : String) (v : α) : List (String × α) :=
  match m with
  | [] => [(k, v)]
  | (k2, w) :: rest => if k2 = k then (k, v) :: rest else (k2, w) :: dictSet rest k v

/-- The module-level `attribute_mapping` dict: full VOT attribute name to its
abbreviated code, in source order. -/
def attribute_mapping : List (String × String) :=
  [("appearance_change", "AC"),
   ("aspect_ratio_change", "ARC"),
   ("background_clutter", "BC"),
   ("camera_motion", "CM"),
   ("fast_motion", "FM"),
   ("full_occlusion", "FOC"),
   ("illumination_variation", "IV"),
   ("low_resolution", "LR"),
   ("motion_blur", "MB"),
   ("out_of_view", "OV"),
   ("partial_occlusion", "POC"),
   ("scale_variation", "SV"),
   ("similar_objects", "SO")]

/-- `_map_attributes(attributes)`: `[attribute_mapping.get(key) for key in
attributes.keys()]` — one `Option` per key, `none` when the key is not a VOT
attribute name (Python `dict.get` returns `None` there). -/
def _map_attributes (attributes : List (String × List Nat)) : List (Option String) :=
  attributes.map (fun kv => dictGet attribute_mapping kv.1)

/-- Python `key in attribute_mapping.keys()`. -/
def keyInKeys (k : String) : Bool :=
  (attribute_mapping.map Prod.fst).contains k

/-- Python `==` between a `str` and a `(str, str)` tuple: always `False`
(no cross-type equality), whatever the operands are. -/
def pyStrEqPair (_ : String) (_ : String × String) : Bool := false

/-- Python `key in attribute_mapping.items()`: membership of the string `key`
among the `(name, code)` tuples, decided pairwise by `pyStrEqPair`. -/
def keyInItems (k : String) : Bool :=
  attribute_mapping.any (pyStrEqPair k)

/-- `_clear_attributes(attributes)`: keep an entry iff some value of its flag
list satisfies `value == 1 and (key in attribute_mapping.keys() or key in
attribute_mapping.items())` (the for/break/else in the source pops the entry
from the copy when no value triggers the break; the copy keeps the order of
the remaining entries). -/
def _clear_attributes (attributes : List (String × List Nat)) : List (String × List Nat) :=
  attributes.filter (fun kv => kv.2.any (fun v => v == 1 && (keyInKeys kv.1 || keyInItems kv.1)))

/-- The task metadata the exporter reads: `task_meta.get("name")`,
`.get("size")`, `int(.get("start_frame"))`, `int(.get("stop_frame"))`. -/
structure TaskMeta where
  name : String
  size : Nat
  start_frame : Int
  stop_frame : Int
deriving Repr, DecidableEq

/-- `_make_info(task_meta)`: the fixed key/value dict written to `info.txt`,
values rendered as the f-string writes them. -/
def _make_info (task_meta : TaskMeta) : List (String × String) :=
  [("sequence_name", task_meta.name),
   ("spectrum", "color"),
   ("camera_name", "n/a"),
   ("frame_size_x", "0"),
   ("frame_size_y", "0"),
   ("number_of_frames", toString task_meta.size),
   ("attributes", ""),
   ("location", "n/a"),
   ("year", "0"),
   ("original_video_file", "n/a"),
   ("original_frame_size_x", "0"),
   ("original_frame_size_y", "0"),
   ("cropping_offset_x", "0"),
   ("cropping_offset_y", "0"),
   ("deinterlaced", "0"),
   ("start_frame", toString (task_meta.start_frame + 1)),
   ("end_frame", toString (task_meta.stop_frame + 1))]

/-- One line of `groundtruth.txt`. `nanLine` is a line containing the literal
substring "nan" (the exporter writes "nan,nan,nan,nan,nan,nan,nan,nan");
`fields vs` is a nan-free line whose comma-split entries parse as the numbers
`vs`. -/
inductive GTLine where
  | nanLine : GTLine
  | fields : List ℚ → GTLine
deriving Repr, DecidableEq

/-- One annotation yielded for a dataset item by the extraction adapter: the
exporter destructures `points[0]..points[3]` into `xtl, ytl, xbr, ybr`
(rectangle annotations carry exactly these four points) and iterates
`attributes.items()`, an ordered dict of boolean attribute values. -/
structure Ann where
  xtl : ℚ
  ytl : ℚ
  xbr : ℚ
  ybr : ℚ
  attributes : List (String × Bool)
deriving Repr, DecidableEq

/-- A dataset item: the per-frame annotation set the exporter iterates. -/
structure DatasetItem where
  annotations : List Ann
deriving Repr, DecidableEq

/-- The flag the exporter accumulates for one attribute value:
`1 if value else 0`. -/
def flagNat (value : Bool) : Nat :=
  if value then 1 else 0

/-- The `for key, value in annotation.attributes.items()` loop: for each
attribute, make sure the accumulation dict has a (possibly fresh) list for the
key — `if not attributes.get(key): attributes[key] = []`, where re-binding an
absent or empty entry and appending both amount to `dictSet` with the extended
list — and append `1 if value else 0`. -/
def appendFlag (m : List (String × List Nat)) (k : String) (value : Bool) : List (String × List Nat) :=
  match dictGet m k with
  | none => dictSet m k [flagNat value]
  | some l => dictSet m k (l ++ [flagNat value])

/-- The whole per-annotation attribute accumulation loop. -/
def appendFlags (m : List (String × List Nat)) (al : List (String × Bool)) : List (String × List Nat) :=
  al.foldl (fun m kv => appendFlag m kv.1 kv.2) m

/-- The 8-value ground-truth line the exporter emits for a non-occluded
annotation: `f"{xtl},{ytl},{xtl},{ybr},{xbr},{ybr},{xbr},{ytl}"`. -/
def cornersLine (a : Ann) : GTLine :=
  GTLine.fields [a.xtl, a.ytl, a.xtl, a.ybr, a.xbr, a.ybr, a.xbr, a.ytl]

/-- The body of the exporter's `for annotation in dataset_item.annotations`
loop: accumulate the annotation's attribute flags, then test
`attributes.get("full_occlusion")[-1] == 1 or attributes.get("out_of_view")[-1] == 1`
(short-circuit `or`; subscripting `None` raises a TypeError, `[-1]` of an
empty list an IndexError) and append the "nan" sentinel line or the 8-value
corner line to `groundtruths`. -/
def exportStep (st : List (String × List Nat) × List GTLine) (a : Ann) :
    Except String (List (String × List Nat) × List GTLine) :=
  match dictGet (appendFlags st.1 a.attributes) "full_occlusion" with
  | none => Except.error "TypeError"
  | some lfoc =>
    match lfoc.getLast? with
    | none => Except.error "IndexError"
    | some foc =>
      if foc = 1 then Except.ok (appendFlags st.1 a.attributes, st.2 ++ [GTLine.nanLine])
      else
        match dictGet (appendFlags st.1 a.attributes) "out_of_view" with
        | none => Except.error "TypeError"
        | some lov =>
          match lov.getLast? with
          | none => Except.error "IndexError"
          | some ov =>
            if ov = 1 then Except.ok (appendFlags st.1 a.attributes, st.2 ++ [GTLine.nanLine])
            else Except.ok (appendFlags st.1 a.attributes, st.2 ++ [cornersLine a])

/-- The exporter's accumulation phase: the nested
`for x, dataset_item in enumerate(extractor._items)` /
`for annotation in dataset_item.annotations` loops, starting from the empty
`attributes` dict and empty `groundtruths` list. (Image encoding under
`save_images` touches neither accumulator and is outside the model.) -/
def accumulate (items : List DatasetItem) :
    Except String (List (String × List Nat) × List GTLine) :=
  items.foldlM (fun st it => it.annotations.foldlM exportStep st) ([], [])

/-- One element of `",".join(...)` over the results of `_map_attributes`:
joining demands a `str`, and a `None` in the list raises a TypeError. -/
def pyStrOfOpt (o : Option String) : Except String String :=
  match o with
  | none => Except.error "TypeError"
  | some s => Except.ok s

/-- The fixed `sequence` file: its `start_frame=` line interpolates
`info.get('start_frame')` (an f-string prints "None" for an absent key). -/
def sequenceFile (info : List (String × String)) : List String :=
  ["channels.\x7bspectrum\x7d=data/%08d.png",
   "start_frame=" ++ (match dictGet info "start_frame" with
                      | some s => s
                      | none => "None"),
   "format=default",
   "fps=\x7bfps\x7d",
   "name=\x7bsequence_name\x7d"]

/-- The archive the exporter writes: the `<key>.tag` files (key and 0/1 flag
lines, in dict order), the `groundtruth.txt` lines, the `info.txt` key=value
pairs, the `sequence` file lines, and — kept explicit so its contents can be
spoken about — the attribute code list whose comma-join is `info.txt`'s
`attributes` value. -/
structure ExportedArchive where
  tagFiles : List (String × List Nat)
  groundtruth : List GTLine
  info : List (String × String)
  attrCodes : List String
  sequence : List String
deriving Repr, DecidableEq

/-- The exporter's serialization phase, after the accumulation loops:
`_clear_attributes`, the `.tag` files, `groundtruth.txt`, `info.txt` with its
`attributes` entry re-set to the joined code list, and the fixed `sequence`
file (its `start_frame=` line interpolates `info.get('start_frame')`, printing
"None" if the key were absent). -/
def exportArtifacts (acc : List (String × List Nat)) (gts : List GTLine)
    (task_meta : TaskMeta) : Except String ExportedArchive :=
  (_map_attributes (_clear_attributes acc)).mapM pyStrOfOpt >>= fun codes =>
    Except.ok
      { tagFiles := _clear_attributes acc
        groundtruth := gts
        info := dictSet (_make_info task_meta) "attributes" (String.intercalate "," codes)
        attrCodes := codes
        sequence :=
          sequenceFile (dictSet (_make_info task_meta) "attributes"
            (String.intercalate "," codes)) }

/-- `vot_exporter(file_object, task_data, save_images)`: accumulate over the
extractor items, then write the four text artifacts into the archive. -/
def vot_exporter (items : List DatasetItem) (task_meta : TaskMeta) :
    Except String ExportedArchive := do
  let (acc, gts) ← accumulate items
  exportArtifacts acc gts task_meta

/-- The extracted contents of an uploaded archive: `groundtruth.txt` as a list
of lines when the file exists (`none` when the `assert` on its presence
fails), and the `*.tag` files as (stem, lines) in glob order. -/
structure ImportArchive where
  groundtruthFile : Option (List GTLine)
  tagFiles : List (String × List String)
deriving Repr, DecidableEq

/-- The shape handed to `task_data.add_shape`: the keyword arguments of the
`task_data.LabeledShape(...)` call. -/
structure LabeledShape where
  type : String
  points : List ℚ
  occluded : Bool
  attributes : List (String × Bool)
  label : String
  source : String
  frame : Nat
deriving Repr, DecidableEq

/-- Python `lst[i]` for a non-negative index: IndexError when out of range. -/
def pyIndex (l : List α) (i : Nat) : Except String α :=
  match l.get? i with
  | none => Except.error "IndexError"
  | some v => Except.ok v

/-- The nan branch of the importer: `line = [0, 0, 0, 0, 0, 0, 0, 0]`; the
other branch keeps the floats the comma-split line parsed to. -/
def parseGTLine : GTLine → List ℚ
  | GTLine.nanLine => [0, 0, 0, 0, 0, 0, 0, 0]
  | GTLine.fields vs => vs

/-- One step of the importer's `for key, value in attributes.items()` loop:
`attribute_list.append((key, value[x]))`, an IndexError when the tag file has
no line `x`. -/
def tagLookup (x : Nat) (kv : String × List String) : Except String (String × String) :=
  pyIndex kv.2 x >>= fun v => Except.ok (kv.1, v)

/-- The body of the importer's `for x, line in enumerate(groundtruths)` loop:
parse the line, look up `value[x]` in every tag file (IndexError past its
length), then build the shape with `points=[line[0], line[1], line[4],
line[5]]` and one boolean attribute per tag file, true iff the text value
equals "1". -/
def importLine (tagFiles : List (String × List String)) (x : Nat) (line : GTLine) :
    Except String LabeledShape :=
  tagFiles.mapM (tagLookup x) >>= fun attribute_list =>
  pyIndex (parseGTLine line) 0 >>= fun p0 =>
  pyIndex (parseGTLine line) 1 >>= fun p1 =>
  pyIndex (parseGTLine line) 4 >>= fun p4 =>
  pyIndex (parseGTLine line) 5 >>= fun p5 =>
  Except.ok
    { type := "rectangle"
      points := [p0, p1, p4, p5]
      occluded := false
      attributes := attribute_list.map (fun kv => (kv.1, kv.2 == "1"))
      label := "object"
      source := "manual"
      frame := x }

/-- The importer's whole enumeration loop, shapes in frame order. The sink
receives each shape as it is built; on an error the loop aborts and the error
propagates, so success carries exactly the shapes added. -/
def importLines (tagFiles : List (String × List String)) (x : Nat) :
    List GTLine → Except String (List LabeledShape)
  | [] => Except.ok []
  | line :: rest => do
    let s ← importLine tagFiles x line
    let ss ← importLines tagFiles (x + 1) rest
    Except.ok (s :: ss)

/-- `vot_importer(file_object, task_data)`: a stream that is not a valid zip
skips the whole body (`if zipfile.is_zipfile(...)` has no else branch) and
returns normally with no shape added; a missing `groundtruth.txt` fails the
`assert`; otherwise every ground-truth line yields one shape. The
`if att_files is not None` guard in the source is always taken (`glob`
returns a list). -/
def vot_importer : Option ImportArchive → Except String (List LabeledShape)
  | none => Except.ok []
  | some ar =>
    match ar.groundtruthFile with
    | none => Except.error "AssertionError"
    | some lines => importLines ar.tagFiles 0 lines

/-- Re-opening an exported archive for import: the ground-truth lines are read
back, each `<key>.tag` file's stem is the key and its lines are the flags as
the text `f"{value}\n"` wrote them (glob order modelled as write order). -/
def archiveToImport (ar : ExportedArchive) : ImportArchive :=
  { groundtruthFile := some ar.groundtruth
    tagFiles := ar.tagFiles.map (fun kv => (kv.1, kv.2.map toString)) }

/-- Proof-side abbreviation: the boolean an annotation's attribute dict holds
for a key (`false` when absent). -/
def attrValB (a : Ann) (k : String) : Bool :=
  (dictGet a.attributes k).getD false

/-- Proof-side abbreviation: the accumulation dict after processing `anns`,
when every annotation carries exactly the ordered attribute key list `K`: one
entry per key of `K`, holding one flag per annotation. -/
def flagState (K : List String) (anns : List Ann) : List (String × List Nat) :=
  K.map (fun k => (k, anns.map (fun a => flagNat (attrValB a k))))

/-! ### Concrete inputs for the claim evaluations -/

/-- A fixed task metadata record for the concrete evaluations. -/
def metaW : TaskMeta :=
  { name := "sequence", size := 1, start_frame := 0, stop_frame := 0 }

/-- An annotation whose attribute dict never mentions "full_occlusion". -/
def annNoFoc : Ann :=
  { xtl := 1, ytl := 2, xbr := 3, ybr := 4, attributes := [("camera_motion", true)] }

/-- A non-occluded annotation of the rectangle (1,2)-(3,4). -/
def annP : Ann :=
  { xtl := 1, ytl := 2, xbr := 3, ybr := 4,
    attributes := [("full_occlusion", false), ("out_of_view", false), ("camera_motion", true)] }

/-- A second non-occluded annotation, sharing a frame with `annP` in the C3
counterexample. -/
def annQ : Ann :=
  { xtl := 5, ytl := 6, xbr := 7, ybr := 8,
    attributes := [("full_occlusion", false), ("out_of_view", false), ("camera_motion", false)] }

/-- A non-occluded annotation carrying a non-VOT attribute that is true. -/
def annCustom : Ann :=
  { xtl := 1, ytl := 2, xbr := 3, ybr := 4,
    attributes := [("full_occlusion", false), ("out_of_view", false), ("custom", true)] }

/-- Two uniformly-keyed, non-occluded annotations for the round-trip witness. -/
def annsW2 : List Ann :=
  [{ xtl := 1, ytl := 2, xbr := 3, ybr := 4,
     attributes := [("full_occlusion", false), ("out_of_view", false), ("camera_motion", true)] },
   { xtl := 5, ytl := 6, xbr := 7, ybr := 8,
     attributes := [("full_occlusion", false), ("out_of_view", false), ("camera_motion", false)] }]

/-- One item whose single annotation is fully occluded. -/
def itemsW3 : List DatasetItem :=
  [⟨[{ xtl := 1, ytl := 2, xbr := 3, ybr := 4,
       attributes := [("full_occlusion", true), ("out_of_view", false)] }]⟩]

/-- The `info.txt` dict of the concrete exports below, with the attribute
list "FOC". -/
def infoW : List (String × String) :=
  dictSet (_make_info metaW) "attributes" "FOC"

/-- The archive `vot_exporter itemsW3 metaW` writes. -/
def arW3 : ExportedArchive :=
  { tagFiles := [("full_occlusion", [1])]
    groundtruth := [GTLine.nanLine]
    info := infoW
    attrCodes := ["FOC"]
    sequence := sequenceFile infoW }

/-- An accumulated attribute map in which "camera_motion" is permanently 0. -/
def accW5 : List (String × List Nat) :=
  [("camera_motion", [0, 0]), ("full_occlusion", [1])]

/-- The archive `exportArtifacts accW5 [] metaW` writes. -/
def arW5 : ExportedArchive :=
  { tagFiles := [("full_occlusion", [1])]
    groundtruth := []
    info := infoW
    attrCodes := ["FOC"]
    sequence := sequenceFile infoW }

/-- An uploaded archive holding the spec's example ground-truth line and one
aligned tag file. -/
def arC6W : ImportArchive :=
  { groundtruthFile := some [GTLine.fields [1, 2, 3, 2, 3, 4, 1, 4]]
    tagFiles := [("camera_motion", ["1"])] }

/-- The shapes the importer hands to the sink for `arC6W`. -/
def outC6W : List LabeledShape :=
  [{ type := "rectangle", points := [1, 2, 3, 4], occluded := false,
     attributes := [("camera_motion", true)], label := "object",
     source := "manual", frame := 0 }]

/-- An uploaded archive whose tag file is one line shorter than its two-line
ground-truth file. -/
def arC8W : ImportArchive :=
  { groundtruthFile := some [GTLine.fields [1, 2, 1, 4, 3, 4, 3, 2], GTLine.nanLine]
    tagFiles := [("camera_motion", ["1"])] }

end VotFormat

namespace VotFormat

/-! ## Except monad reduction lemmas -/

theorem exBindErr {α β : Type} (e : String) (f : α → Except String β) :
    (Except.error e : Except String α) >>= f = Except.error e := rfl

theorem exBindOk {α β : Type} (a : α) (f : α → Except String β) :
    (Except.ok a : Except String α) >>= f = f a := rfl

theorem exPure {α : Type} (a : α) : (pure a : Except String α) = Except.ok a := rfl

theorem mapM_cons_eq {α β : Type} (f : α → Except String β) (a : α) (l : List α) :
    (a :: l).mapM f = f a >>= fun b => l.mapM f >>= fun bs => pure (b :: bs) := by
  rw [List.mapM_cons]

theorem mapM_nil_eq {α β : Type} (f : α → Except String β) :
    ([] : List α).mapM f = Except.ok [] := rfl

/-! ## Dictionary lemmas -/

theorem dictGet_cons_ne {m : List (String × α)} {k k2 : String} {v : α} (h : k2 ≠ k) :
    dictGet ((k2, v) :: m) k = dictGet m k := by
  simp [dictGet, h]

theorem dictGet_cons_self {m : List (String × α)} {k : String} {v : α} :
    dictGet ((k, v) :: m) k = some v := by
  simp [dictGet]

theorem dictSet_cons_ne {m : List (String × α)} {k k2 : String} {v w : α} (h : k2 ≠ k) :
    dictSet ((k2, w) :: m) k v = (k2, w) :: dictSet m k v := by
  simp [dictSet, h]

theorem dictGet_mem {m : List (String × α)} {k : String} {v : α}
    (h : dictGet m k = some v) : (k, v) ∈ m := by
  induction m with
  | nil => simp [dictGet] at h
  | cons kv rest ih =>
    obtain ⟨k2, w⟩ := kv
    by_cases hk : k2 = k
    · subst hk
      rw [dictGet_cons_self] at h
      cases h
      exact List.mem_cons_self _ _
    · rw [dictGet_cons_ne hk] at h
      exact List.mem_cons_of_mem _ (ih h)

theorem dictGet_isSome_of_mem_keys {m : List (String × α)} {k : String}
    (h : k ∈ m.map Prod.fst) : ∃ v, dictGet m k = some v := by
  induction m with
  | nil => simp at h
  | cons kv rest ih =>
    obtain ⟨k2, w⟩ := kv
    by_cases hk : k2 = k
    · subst hk
      exact ⟨w, dictGet_cons_self⟩
    · rw [dictGet_cons_ne hk]
      apply ih
      rw [List.map_cons, List.mem_cons] at h
      rcases h with h | h
      · exact absurd h.symm hk
      · exact h

theorem dictGet_none_of_not_mem_keys {m : List (String × α)} {k : String}
    (h : k ∉ m.map Prod.fst) : dictGet m k = none := by
  induction m with
  | nil => rfl
  | cons kv rest ih =>
    obtain ⟨k2, w⟩ := kv
    rw [List.map_cons, List.mem_cons] at h
    push_neg at h
    rw [dictGet_cons_ne (fun e => h.1 e.symm)]
    exact ih h.2

theorem dictGet_keyMap {K : List String} {g : String → α} {k : String} :
    dictGet (K.map (fun x => (x, g x))) k = if k ∈ K then some (g k) else none := by
  induction K with
  | nil => simp [dictGet]
  | cons k2 rest ih =>
    by_cases hk : k2 = k
    · subst hk
      simp [dictGet_cons_self]
    · rw [List.map_cons, dictGet_cons_ne hk, ih]
      by_cases hm : k ∈ rest
      · simp [hm, Ne.symm hk]
      · simp [hm, Ne.symm hk]

theorem dictGet_pairMap {m : List (String × β)} {f : String → β → α} {k : String} :
    dictGet (m.map (fun kv => (kv.1, f kv.1 kv.2))) k = (dictGet m k).map (f k) := by
  induction m with
  | nil => rfl
  | cons kv rest ih =>
    obtain ⟨k2, w⟩ := kv
    by_cases hk : k2 = k
    · subst hk
      simp only [List.map_cons]
      rw [dictGet_cons_self (v := f k2 w), dictGet_cons_self]
      rfl
    · simp only [List.map_cons]
      rw [dictGet_cons_ne hk, dictGet_cons_ne hk, ih]

theorem dictGet_of_mem_nodup {m : List (String × α)} {k : String} {v : α}
    (hnd : (m.map Prod.fst).Nodup) (h : (k, v) ∈ m) : dictGet m k = some v := by
  induction m with
  | nil => simp at h
  | cons kv rest ih =>
    obtain ⟨k2, w⟩ := kv
    rw [List.map_cons, List.nodup_cons] at hnd
    rcases List.mem_cons.mp h with h1 | h1
    · cases h1
      exact dictGet_cons_self
    · have hk : k2 ≠ k := by
        rintro rfl
        exact hnd.1 (List.mem_map.mpr ⟨(k2, v), h1, rfl⟩)
      rw [dictGet_cons_ne hk]
      exact ih hnd.2 h1

/-! ## Except fold and mapM lemmas -/

theorem exceptFoldPres {α β : Type} (f : β → α → Except String β) (P : β → Prop)
    (hstep : ∀ s a s2, P s → f s a = Except.ok s2 → P s2) :
    ∀ (l : List α) (s sf : β), P s → l.foldlM f s = Except.ok sf → P sf := by
  intro l
  induction l with
  | nil =>
    intro s sf hP h
    cases h
    exact hP
  | cons a rest ih =>
    intro s sf hP h
    have hc : (a :: rest).foldlM f s = f s a >>= fun s2 => rest.foldlM f s2 := rfl
    rw [hc] at h
    cases hf : f s a with
    | error e =>
      rw [hf, exBindErr] at h
      exact Except.noConfusion h
    | ok s2 =>
      rw [hf, exBindOk] at h
      exact ih s2 sf (hstep s a s2 hP hf) h

theorem exceptFoldSum {α β : Type} (f : β → α → Except String β) (μ : β → Nat) (c : α → Nat)
    (hstep : ∀ s a s2, f s a = Except.ok s2 → μ s2 = μ s + c a) :
    ∀ (l : List α) (s sf : β), l.foldlM f s = Except.ok sf →
      μ sf = μ s + (l.map c).sum := by
  intro l
  induction l with
  | nil =>
    intro s sf h
    cases h
    simp
  | cons a rest ih =>
    intro s sf h
    have hc : (a :: rest).foldlM f s = f s a >>= fun s2 => rest.foldlM f s2 := rfl
    rw [hc] at h
    cases hf : f s a with
    | error e =>
      rw [hf, exBindErr] at h
      exact Except.noConfusion h
    | ok s2 =>
      rw [hf, exBindOk] at h
      rw [ih s2 sf h, hstep s a s2 hf, List.map_cons, List.sum_cons]
      omega

theorem mapM_ok_of_all {α β : Type} (f : α → Except String β) (g : α → β) :
    ∀ (l : List α), (∀ a ∈ l, f a = Except.ok (g a)) →
      l.mapM f = Except.ok (l.map g) := by
  intro l
  induction l with
  | nil => intro _; rfl
  | cons a rest ih =>
    intro h
    rw [mapM_cons_eq, h a (List.mem_cons_self _ _), exBindOk,
      ih (fun b hb => h b (List.mem_cons_of_mem _ hb)), exBindOk, exPure, List.map_cons]

theorem mapM_ok_mem {α β : Type} (f : α → Except String β) :
    ∀ (l : List α) (out : List β), l.mapM f = Except.ok out →
      ∀ b ∈ out, ∃ a ∈ l, f a = Except.ok b := by
  intro l
  induction l with
  | nil =>
    intro out h b hb
    cases h
    simp at hb
  | cons a rest ih =>
    intro out h b hb
    rw [mapM_cons_eq] at h
    cases hf : f a with
    | error e =>
      rw [hf, exBindErr] at h
      exact Except.noConfusion h
    | ok v =>
      rw [hf, exBindOk] at h
      cases hr : rest.mapM f with
      | error e =>
        rw [hr, exBindErr] at h
        exact Except.noConfusion h
      | ok vs =>
        rw [hr, exBindOk] at h
        cases h
        rcases List.mem_cons.mp hb with rfl | hb2
        · exact ⟨a, List.mem_cons_self _ _, hf⟩
        · obtain ⟨a2, ha2, hfa2⟩ := ih vs hr b hb2
          exact ⟨a2, List.mem_cons_of_mem _ ha2, hfa2⟩

theorem mapM_not_ok_of_mem {α β : Type} (f : α → Except String β) {a : α} {e : String} :
    ∀ (l : List α), a ∈ l → f a = Except.error e →
      ∀ out, l.mapM f ≠ Except.ok out := by
  intro l
  induction l with
  | nil => intro h; simp at h
  | cons a2 rest ih =>
    intro hmem hfa out h
    rw [mapM_cons_eq] at h
    rcases List.mem_cons.mp hmem with rfl | hmem2
    · rw [hfa, exBindErr] at h
      exact Except.noConfusion h
    · cases hf : f a2 with
      | error e2 =>
        rw [hf, exBindErr] at h
        exact Except.noConfusion h
      | ok v =>
        rw [hf, exBindOk] at h
        cases hr : rest.mapM f with
        | error e2 =>
          rw [hr, exBindErr] at h
          exact Except.noConfusion h
        | ok vs => exact ih hmem2 hfa vs hr

end VotFormat

namespace VotFormat

/-! ## Accumulation lemmas for the exporter -/

theorem exBindPure {α : Type} (x : Except String α) : x >>= pure = x := by
  cases x <;> rfl

theorem flagNat_eq_one_iff {b : Bool} : (flagNat b == 1) = b := by
  cases b <;> rfl

theorem keyInItems_false (k : String) : keyInItems k = false := by
  simp [keyInItems, pyStrEqPair]

theorem appendFlag_cons_ne {m : List (String × List Nat)} {k k2 : String}
    {v : List Nat} {b : Bool} (h : k2 ≠ k) :
    appendFlag ((k2, v) :: m) k b = (k2, v) :: appendFlag m k b := by
  unfold appendFlag
  rw [dictGet_cons_ne h]
  cases dictGet m k <;> simp [dictSet_cons_ne h]

theorem appendFlags_cons_not_mem {al : List (String × Bool)} :
    ∀ {m : List (String × List Nat)} {k2 : String} {v : List Nat},
      k2 ∉ al.map Prod.fst →
      appendFlags ((k2, v) :: m) al = (k2, v) :: appendFlags m al := by
  induction al with
  | nil => intro m k2 v _; rfl
  | cons kv rest ih =>
    intro m k2 v h
    obtain ⟨k, b⟩ := kv
    rw [List.map_cons, List.mem_cons] at h
    push_neg at h
    show appendFlags (appendFlag ((k2, v) :: m) k b) rest = _
    rw [appendFlag_cons_ne h.1]
    exact ih h.2

theorem appendFlags_keyMap {K : List String} :
    ∀ (al : List (String × Bool)) (g : String → List Nat),
      K.Nodup → al.map Prod.fst = K →
      appendFlags (K.map (fun k => (k, g k))) al
        = K.map (fun k => (k, g k ++ [flagNat ((dictGet al k).getD false)])) := by
  induction K with
  | nil =>
    intro al g _ hal
    rw [List.map_eq_nil_iff] at hal
    subst hal
    rfl
  | cons k0 K2 ih =>
    intro al g hnd hal
    cases al with
    | nil => simp at hal
    | cons kv al2 =>
      obtain ⟨k, b⟩ := kv
      rw [List.map_cons, List.cons.injEq] at hal
      obtain ⟨rfl, hal2⟩ := hal
      rw [List.nodup_cons] at hnd
      show appendFlags (appendFlag ((k, g k) :: K2.map (fun k2 => (k2, g k2))) k b) al2 = _
      rw [show appendFlag ((k, g k) :: K2.map (fun k2 => (k2, g k2))) k b
            = (k, g k ++ [flagNat b]) :: K2.map (fun k2 => (k2, g k2)) by
        unfold appendFlag
        rw [dictGet_cons_self]
        simp [dictSet]]
      rw [appendFlags_cons_not_mem (by rw [hal2]; exact hnd.1)]
      rw [ih al2 g hnd.2 hal2]
      rw [List.map_cons]
      congr 1
      · simp [dictGet_cons_self]
      · apply List.map_eq_map_iff.mpr
        intro k2 hk2
        have hne : k ≠ k2 := by
          rintro rfl
          exact hnd.1 hk2
        rw [dictGet_cons_ne hne]

theorem appendFlags_from_empty :
    ∀ (al : List (String × Bool)),
      (al.map Prod.fst).Nodup →
      appendFlags [] al = al.map (fun kv => (kv.1, [flagNat kv.2])) := by
  intro al
  induction al with
  | nil => intro _; rfl
  | cons kv rest ih =>
    intro hnd
    obtain ⟨k, b⟩ := kv
    rw [List.map_cons, List.nodup_cons] at hnd
    show appendFlags (appendFlag [] k b) rest = _
    rw [show appendFlag [] k b = [(k, [flagNat b])] by rfl]
    rw [appendFlags_cons_not_mem hnd.1, ih hnd.2, List.map_cons]

theorem pairMap_eq_keyMap {β : Type} (f : String → Bool → β) :
    ∀ (al : List (String × Bool)),
      (al.map Prod.fst).Nodup →
      al.map (fun kv => (kv.1, f kv.1 kv.2))
        = (al.map Prod.fst).map (fun k => (k, f k ((dictGet al k).getD false))) := by
  intro al
  induction al with
  | nil => intro _; rfl
  | cons kv rest ih =>
    intro hnd
    obtain ⟨k, b⟩ := kv
    rw [List.map_cons, List.nodup_cons] at hnd
    rw [List.map_cons, List.map_cons, List.map_cons]
    congr 1
    · rw [dictGet_cons_self]
      rfl
    · rw [ih hnd.2]
      apply List.map_eq_map_iff.mpr
      intro k2 hk2
      have hne : k ≠ k2 := by
        rintro rfl
        exact hnd.1 hk2
      rw [dictGet_cons_ne hne]

end VotFormat

namespace VotFormat

/-- Processing one annotation that carries exactly the ordered key set `K`
(with both occlusion keys present and false) from a `flagState` accumulator:
the occlusion test passes and the 8-value corner line is appended. -/
theorem exportStep_flagState {K : List String} (hnd : K.Nodup)
    (hfoc : "full_occlusion" ∈ K) (hov : "out_of_view" ∈ K)
    {a : Ann} (ha : a.attributes.map Prod.fst = K)
    (haf : attrValB a "full_occlusion" = false)
    (hao : attrValB a "out_of_view" = false)
    (pre : List Ann) (gt0 : List GTLine) :
    exportStep (flagState K pre, gt0) a
      = Except.ok (flagState K (pre ++ [a]), gt0 ++ [cornersLine a]) := by
  have hflags : appendFlags (flagState K pre) a.attributes = flagState K (pre ++ [a]) := by
    unfold flagState
    rw [appendFlags_keyMap a.attributes _ hnd ha]
    apply List.map_eq_map_iff.mpr
    intro k hk
    rw [List.map_append]
    rfl
  show exportStep (flagState K pre, gt0) a = _
  unfold exportStep
  simp only [hflags]
  have hget : ∀ k : String, k ∈ K →
      dictGet (flagState K (pre ++ [a])) k
        = some ((pre ++ [a]).map (fun a2 => flagNat (attrValB a2 k))) := by
    intro k hk
    unfold flagState
    rw [dictGet_keyMap]
    simp [hk]
  rw [hget _ hfoc, hget _ hov]
  rw [List.map_append, List.map_append]
  simp only [List.map_cons, List.map_nil]
  rw [List.getLast?_concat, List.getLast?_concat]
  rw [haf, hao]
  rfl

/-- Folding the per-annotation loop over uniformly-keyed, non-occluded
annotations from a `flagState` accumulator. -/
theorem exportFold_flagState {K : List String} (hnd : K.Nodup)
    (hfoc : "full_occlusion" ∈ K) (hov : "out_of_view" ∈ K) :
    ∀ (anns pre : List Ann) (gt0 : List GTLine),
      (∀ a ∈ anns, a.attributes.map Prod.fst = K ∧
        attrValB a "full_occlusion" = false ∧ attrValB a "out_of_view" = false) →
      anns.foldlM exportStep (flagState K pre, gt0)
        = Except.ok (flagState K (pre ++ anns), gt0 ++ anns.map cornersLine) := by
  intro anns
  induction anns with
  | nil =>
    intro pre gt0 _
    simp only [List.foldlM_nil, List.map_nil, List.append_nil]
    rfl
  | cons a rest ih =>
    intro pre gt0 h
    obtain ⟨ha, haf, hao⟩ := h a (List.mem_cons_self _ _)
    have hc : (a :: rest).foldlM exportStep (flagState K pre, gt0)
        = exportStep (flagState K pre, gt0) a >>= fun s2 => rest.foldlM exportStep s2 := rfl
    rw [hc, exportStep_flagState hnd hfoc hov ha haf hao pre gt0, exBindOk]
    rw [ih (pre ++ [a]) (gt0 ++ [cornersLine a]) (fun b hb => h b (List.mem_cons_of_mem _ hb))]
    rw [List.append_assoc, List.append_assoc]
    rfl

/-- The items fold over singleton items equals the annotation fold. -/
theorem accumulate_singletons (anns : List Ann) :
    accumulate (anns.map (fun a => ⟨[a]⟩)) = anns.foldlM exportStep ([], []) := by
  unfold accumulate
  suffices h : ∀ (st : List (String × List Nat) × List GTLine),
      (anns.map (fun a => (⟨[a]⟩ : DatasetItem))).foldlM
        (fun st it => it.annotations.foldlM exportStep st) st
        = anns.foldlM exportStep st from h ([], [])
  induction anns with
  | nil => intro st; rfl
  | cons a rest ih =>
    intro st
    have hc1 : ((⟨[a]⟩ : DatasetItem) :: rest.map (fun a => ⟨[a]⟩)).foldlM
        (fun st it => it.annotations.foldlM exportStep st) st
        = ([a].foldlM exportStep st) >>= fun s2 =>
            (rest.map (fun a => (⟨[a]⟩ : DatasetItem))).foldlM
              (fun st it => it.annotations.foldlM exportStep st) s2 := rfl
    have hc2 : (a :: rest).foldlM exportStep st
        = exportStep st a >>= fun s2 => rest.foldlM exportStep s2 := rfl
    rw [List.map_cons, hc1, hc2]
    have hs : [a].foldlM exportStep st = exportStep st a := by
      show exportStep st a >>= (fun s2 => ([] : List Ann).foldlM exportStep s2) = _
      cases exportStep st a <;> rfl
    rw [hs]
    cases exportStep st a with
    | error e => rw [exBindErr, exBindErr]
    | ok s2 =>
      rw [exBindOk, exBindOk]
      exact ih s2

/-- The exporter's first annotation, processed from the genuinely empty
accumulation dict. -/
theorem exportStep_from_empty {a : Ann}
    (hnd : (a.attributes.map Prod.fst).Nodup)
    (hfoc : "full_occlusion" ∈ a.attributes.map Prod.fst)
    (hov : "out_of_view" ∈ a.attributes.map Prod.fst)
    (haf : attrValB a "full_occlusion" = false)
    (hao : attrValB a "out_of_view" = false) (gt0 : List GTLine) :
    exportStep ([], gt0) a
      = Except.ok (flagState (a.attributes.map Prod.fst) [a], gt0 ++ [cornersLine a]) := by
  have hflags : appendFlags [] a.attributes = flagState (a.attributes.map Prod.fst) [a] := by
    rw [appendFlags_from_empty a.attributes hnd]
    unfold flagState
    rw [pairMap_eq_keyMap (fun _ b => [flagNat b]) a.attributes hnd]
    apply List.map_eq_map_iff.mpr
    intro k hk
    rfl
  unfold exportStep
  simp only [hflags]
  have hget : ∀ k : String, k ∈ a.attributes.map Prod.fst →
      dictGet (flagState (a.attributes.map Prod.fst) [a]) k
        = some [flagNat (attrValB a k)] := by
    intro k hk
    unfold flagState
    rw [dictGet_keyMap]
    simp [hk]
  rw [hget _ hfoc, hget _ hov, haf, hao]
  rfl

end VotFormat

namespace VotFormat

/-! ## Clearing and serialization lemmas -/

theorem clear_flagState {K : List String} {anns : List Ann} :
    _clear_attributes (flagState K anns)
      = (K.filter (fun k => (anns.map (fun a => flagNat (attrValB a k))).any
            (fun v => v == 1 && (keyInKeys k || keyInItems k)))).map
          (fun k => (k, anns.map (fun a => flagNat (attrValB a k)))) := by
  unfold _clear_attributes flagState
  rw [List.filter_map]
  rfl

theorem mem_clear_keyInKeys {acc : List (String × List Nat)} {kv : String × List Nat}
    (h : kv ∈ _clear_attributes acc) : kv ∈ acc ∧ keyInKeys kv.1 = true := by
  unfold _clear_attributes at h
  rw [List.mem_filter] at h
  refine ⟨h.1, ?_⟩
  have h2 := h.2
  rw [List.any_eq_true] at h2
  obtain ⟨v, _, hv⟩ := h2
  rw [Bool.and_eq_true] at hv
  have h3 := hv.2
  rw [keyInItems_false, Bool.or_false] at h3
  exact h3

theorem keyInKeys_dictGet {k : String} (h : keyInKeys k = true) :
    ∃ c, dictGet attribute_mapping k = some c := by
  apply dictGet_isSome_of_mem_keys
  unfold keyInKeys at h
  exact List.elem_iff.mp h

theorem exportArtifacts_ok_inv {acc : List (String × List Nat)} {gts : List GTLine}
    {tm : TaskMeta} {ar : ExportedArchive}
    (h : exportArtifacts acc gts tm = Except.ok ar) :
    ar.tagFiles = _clear_attributes acc ∧ ar.groundtruth = gts ∧
      (_map_attributes (_clear_attributes acc)).mapM pyStrOfOpt = Except.ok ar.attrCodes := by
  unfold exportArtifacts at h
  cases hm : (_map_attributes (_clear_attributes acc)).mapM pyStrOfOpt with
  | error e =>
    rw [hm, exBindErr] at h
    exact Except.noConfusion h
  | ok codes =>
    rw [hm, exBindOk] at h
    cases h
    exact ⟨rfl, rfl, rfl⟩

theorem exportArtifacts_ok (acc : List (String × List Nat)) (gts : List GTLine)
    (tm : TaskMeta) :
    ∃ ar, exportArtifacts acc gts tm = Except.ok ar ∧
      ar.tagFiles = _clear_attributes acc ∧ ar.groundtruth = gts := by
  have hall : ∀ o ∈ _map_attributes (_clear_attributes acc),
      pyStrOfOpt o = Except.ok (o.getD "") := by
    intro o ho
    unfold _map_attributes at ho
    rw [List.mem_map] at ho
    obtain ⟨kv, hkv, rfl⟩ := ho
    obtain ⟨c, hc⟩ := keyInKeys_dictGet (mem_clear_keyInKeys hkv).2
    rw [hc]
    rfl
  have hm := mapM_ok_of_all _ _ (_map_attributes (_clear_attributes acc)) hall
  obtain ⟨ar, har⟩ : ∃ ar, exportArtifacts acc gts tm = Except.ok ar := by
    refine ⟨{ tagFiles := _clear_attributes acc
              groundtruth := gts
              info := dictSet (_make_info tm) "attributes" (String.intercalate ","
                ((_map_attributes (_clear_attributes acc)).map (fun o => o.getD "")))
              attrCodes := (_map_attributes (_clear_attributes acc)).map (fun o => o.getD "")
              sequence := sequenceFile (dictSet (_make_info tm) "attributes"
                (String.intercalate ","
                  ((_map_attributes (_clear_attributes acc)).map (fun o => o.getD "")))) }, ?_⟩
    unfold exportArtifacts
    rw [hm, exBindOk]
  obtain ⟨h1, h2, _⟩ := exportArtifacts_ok_inv har
  exact ⟨ar, har, h1, h2⟩

theorem vot_exporter_eq_ok_iff {items : List DatasetItem} {tm : TaskMeta}
    {acc : List (String × List Nat)} {gts : List GTLine}
    (h : accumulate items = Except.ok (acc, gts)) :
    vot_exporter items tm = exportArtifacts acc gts tm := by
  unfold vot_exporter
  rw [h]
  rfl

/-! ## Importer lemmas -/

theorem pyIndex_eq_ok {l : List α} {i : Nat} {v : α} :
    pyIndex l i = Except.ok v ↔ l.get? i = some v := by
  unfold pyIndex
  cases h : l.get? i <;> simp

theorem pyIndex_err {l : List α} {i : Nat} (h : l.length ≤ i) :
    pyIndex l i = Except.error "IndexError" := by
  unfold pyIndex
  rw [List.get?_len_le h]

theorem importLines_cons_eq (tags : List (String × List String)) (x : Nat)
    (line : GTLine) (rest : List GTLine) :
    importLines tags x (line :: rest)
      = importLine tags x line >>= fun s =>
          importLines tags (x + 1) rest >>= fun ss => Except.ok (s :: ss) := rfl

theorem importLines_ok_get {tags : List (String × List String)} :
    ∀ (lines : List GTLine) (x0 : Nat) (out : List LabeledShape),
      importLines tags x0 lines = Except.ok out →
      out.length = lines.length ∧
      ∀ i line, lines.get? i = some line →
        ∃ s, out.get? i = some s ∧ importLine tags (x0 + i) line = Except.ok s := by
  intro lines
  induction lines with
  | nil =>
    intro x0 out h
    cases h
    exact ⟨rfl, by simp⟩
  | cons line rest ih =>
    intro x0 out h
    rw [importLines_cons_eq] at h
    cases hs : importLine tags x0 line with
    | error e =>
      rw [hs, exBindErr] at h
      exact Except.noConfusion h
    | ok s =>
      rw [hs, exBindOk] at h
      cases hr : importLines tags (x0 + 1) rest with
      | error e =>
        rw [hr, exBindErr] at h
        exact Except.noConfusion h
      | ok ss =>
        rw [hr, exBindOk] at h
        cases h
        obtain ⟨hlen, hget⟩ := ih (x0 + 1) ss hr
        constructor
        · simp [hlen]
        · intro i l0 hl
          cases i with
          | zero =>
            cases hl
            exact ⟨s, rfl, by simpa using hs⟩
          | succ j =>
            obtain ⟨s2, hs2, hs2b⟩ := hget j l0 (by simpa using hl)
            refine ⟨s2, by simpa using hs2, ?_⟩
            rw [show x0 + (j + 1) = x0 + 1 + j by omega]
            exact hs2b

theorem importLines_all_ok (tags : List (String × List String)) :
    ∀ (lines : List GTLine) (x0 : Nat),
      (∀ i line, lines.get? i = some line → ∃ s, importLine tags (x0 + i) line = Except.ok s) →
      ∃ out, importLines tags x0 lines = Except.ok out := by
  intro lines
  induction lines with
  | nil => intro x0 _; exact ⟨[], rfl⟩
  | cons line rest ih =>
    intro x0 h
    obtain ⟨s, hs⟩ := h 0 line rfl
    obtain ⟨ss, hss⟩ := ih (x0 + 1)
      (fun i l0 hl => by
        obtain ⟨s2, hs2⟩ := h (i + 1) l0 (by simpa using hl)
        refine ⟨s2, ?_⟩
        rw [show x0 + 1 + i = x0 + (i + 1) by omega]
        exact hs2)
    refine ⟨s :: ss, ?_⟩
    rw [importLines_cons_eq]
    rw [show x0 + 0 = x0 by omega] at hs
    rw [hs, exBindOk, hss, exBindOk]

end VotFormat

namespace VotFormat

/-! ## Per-line importer lemmas -/

theorem tagLookup_ok {x : Nat} {kv : String × List String} (h : x < kv.2.length) :
    tagLookup x kv = Except.ok (kv.1, kv.2.getD x "") := by
  unfold tagLookup
  have hv : kv.2.get? x = some (kv.2.getD x "") := by
    cases hg : kv.2.get? x with
    | none =>
      rw [List.get?_eq_none] at hg
      omega
    | some v =>
      rw [List.getD_eq_get?, hg]
      rfl
  rw [pyIndex_eq_ok.mpr hv, exBindOk]

theorem tagLookup_err {x : Nat} {kv : String × List String} (h : kv.2.length ≤ x) :
    tagLookup x kv = Except.error "IndexError" := by
  unfold tagLookup
  rw [pyIndex_err h, exBindErr]

theorem importLine_ok {tags : List (String × List String)} {x : Nat} {line : GTLine}
    (htag : ∀ kv ∈ tags, x < kv.2.length) (hlen : 6 ≤ (parseGTLine line).length) :
    importLine tags x line
      = Except.ok
          { type := "rectangle"
            points := [(parseGTLine line).getD 0 0, (parseGTLine line).getD 1 0,
                       (parseGTLine line).getD 4 0, (parseGTLine line).getD 5 0]
            occluded := false
            attributes := tags.map (fun kv => (kv.1, kv.2.getD x "" == "1"))
            label := "object"
            source := "manual"
            frame := x } := by
  unfold importLine
  rw [mapM_ok_of_all (tagLookup x) (fun kv => (kv.1, kv.2.getD x "")) tags
    (fun kv hkv => tagLookup_ok (htag kv hkv)), exBindOk]
  have hp : ∀ i : Nat, i < 6 →
      pyIndex (parseGTLine line) i = Except.ok ((parseGTLine line).getD i 0) := by
    intro i hi
    apply pyIndex_eq_ok.mpr
    cases hg : (parseGTLine line).get? i with
    | none =>
      rw [List.get?_eq_none] at hg
      omega
    | some v =>
      rw [List.getD_eq_get?, hg]
      rfl
  rw [hp 0 (by omega), exBindOk, hp 1 (by omega), exBindOk,
    hp 4 (by omega), exBindOk, hp 5 (by omega), exBindOk]
  rw [List.map_map]
  rfl

theorem importLine_err_of_short_tag {tags : List (String × List String)} {x : Nat}
    {kv : String × List String} (hmem : kv ∈ tags) (h : kv.2.length ≤ x) (line : GTLine) :
    ∀ s, importLine tags x line ≠ Except.ok s := by
  intro s hok
  unfold importLine at hok
  cases hm : tags.mapM (tagLookup x) with
  | error e =>
    rw [hm, exBindErr] at hok
    exact Except.noConfusion hok
  | ok al =>
    exact mapM_not_ok_of_mem (tagLookup x) tags hmem (tagLookup_err h) al hm

theorem parseGTLine_length_corners (a : Ann) : (parseGTLine (cornersLine a)).length = 8 := rfl

end VotFormat

namespace VotFormat

/-! ## Key-set and length bookkeeping for the accumulation dict -/

theorem dictGet_dictSet_self {m : List (String × α)} {k : String} {v : α} :
    dictGet (dictSet m k v) k = some v := by
  induction m with
  | nil => simp [dictSet, dictGet]
  | cons kv rest ih =>
    obtain ⟨k2, w⟩ := kv
    by_cases hk : k2 = k
    · subst hk
      simp [dictSet, dictGet]
    · rw [dictSet_cons_ne hk, dictGet_cons_ne hk]
      exact ih

theorem dictGet_dictSet_ne {m : List (String × α)} {k k2 : String} {v : α}
    (h : k2 ≠ k) : dictGet (dictSet m k v) k2 = dictGet m k2 := by
  induction m with
  | nil =>
    show (if k = k2 then some v else dictGet [] k2) = dictGet [] k2
    rw [if_neg (fun e => h e.symm)]
  | cons kv rest ih =>
    obtain ⟨k3, w⟩ := kv
    by_cases hk : k3 = k
    · subst hk
      rw [show dictSet ((k3, w) :: rest) k3 v = (k3, v) :: rest by simp [dictSet]]
      by_cases h32 : k3 = k2
      · exact absurd h32.symm h
      · rw [dictGet_cons_ne h32, dictGet_cons_ne h32]
    · rw [dictSet_cons_ne hk]
      by_cases h32 : k3 = k2
      · subst h32
        rw [dictGet_cons_self, dictGet_cons_self]
      · rw [dictGet_cons_ne h32, dictGet_cons_ne h32]
        exact ih

theorem dictSet_keys {m : List (String × α)} {k : String} {v : α} :
    (dictSet m k v).map Prod.fst
      = if k ∈ m.map Prod.fst then m.map Prod.fst else m.map Prod.fst ++ [k] := by
  induction m with
  | nil => simp [dictSet]
  | cons kv rest ih =>
    obtain ⟨k2, w⟩ := kv
    by_cases hk : k2 = k
    · subst hk
      simp [dictSet]
    · rw [dictSet_cons_ne hk, List.map_cons, List.map_cons, ih]
      by_cases hm : k ∈ rest.map Prod.fst
      · simp [hm, Ne.symm hk]
      · simp [hm, Ne.symm hk]

theorem appendFlag_keys {m : List (String × List Nat)} {k : String} {b : Bool} :
    (appendFlag m k b).map Prod.fst
      = if k ∈ m.map Prod.fst then m.map Prod.fst else m.map Prod.fst ++ [k] := by
  unfold appendFlag
  cases dictGet m k <;> rw [dictSet_keys]

theorem appendFlag_keys_nodup {m : List (String × List Nat)} {k : String} {b : Bool}
    (h : (m.map Prod.fst).Nodup) : ((appendFlag m k b).map Prod.fst).Nodup := by
  rw [appendFlag_keys]
  by_cases hm : k ∈ m.map Prod.fst
  · simpa [hm] using h
  · simp only [hm, if_false]
    rw [List.nodup_append]
    refine ⟨h, List.nodup_singleton _, ?_⟩
    intro a ha hb
    rw [List.mem_singleton] at hb
    exact hm (hb ▸ ha)

theorem appendFlags_keys_nodup {al : List (String × Bool)} :
    ∀ {m : List (String × List Nat)},
      (m.map Prod.fst).Nodup → ((appendFlags m al).map Prod.fst).Nodup := by
  induction al with
  | nil => intro m h; exact h
  | cons kv rest ih =>
    intro m h
    show ((appendFlags (appendFlag m kv.1 kv.2) rest).map Prod.fst).Nodup
    exact ih (appendFlag_keys_nodup h)

theorem appendFlag_eq_none {m : List (String × List Nat)} {k : String} {b : Bool}
    (h : dictGet m k = none) : appendFlag m k b = dictSet m k [flagNat b] := by
  unfold appendFlag
  rw [h]

theorem appendFlag_eq_some {m : List (String × List Nat)} {k : String} {b : Bool}
    {l : List Nat} (h : dictGet m k = some l) :
    appendFlag m k b = dictSet m k (l ++ [flagNat b]) := by
  unfold appendFlag
  rw [h]

/-- The number of flags accumulated for `k` in the dict. -/
theorem appendFlag_len {m : List (String × List Nat)} {k k2 : String} {b : Bool} :
    ((dictGet (appendFlag m k2 b) k).getD []).length
      = ((dictGet m k).getD []).length + (if k2 = k then 1 else 0) := by
  cases hg : dictGet m k2 with
  | none =>
    rw [appendFlag_eq_none hg]
    by_cases hk : k2 = k
    · subst hk
      rw [dictGet_dictSet_self, hg]
      simp
    · rw [dictGet_dictSet_ne (fun e => hk e.symm)]
      simp [hk]
  | some l =>
    rw [appendFlag_eq_some hg]
    by_cases hk : k2 = k
    · subst hk
      rw [dictGet_dictSet_self, hg]
      simp
    · rw [dictGet_dictSet_ne (fun e => hk e.symm)]
      simp [hk]

theorem appendFlags_len {k : String} :
    ∀ (al : List (String × Bool)) (m : List (String × List Nat)),
      ((dictGet (appendFlags m al) k).getD []).length
        = ((dictGet m k).getD []).length + al.countP (fun p => p.1 == k) := by
  intro al
  induction al with
  | nil => intro m; simp [appendFlags, List.countP_nil]
  | cons kv rest ih =>
    intro m
    show ((dictGet (appendFlags (appendFlag m kv.1 kv.2) rest) k).getD []).length = _
    rw [ih (appendFlag m kv.1 kv.2), appendFlag_len, List.countP_cons]
    by_cases hk : kv.1 = k
    · simp [hk]
      omega
    · simp [hk]

/-- `exportStep` always appends the annotation's flags and exactly one
ground-truth line when it succeeds. -/
theorem exportStep_ok_inv {st : List (String × List Nat) × List GTLine} {a : Ann}
    {st2 : List (String × List Nat) × List GTLine}
    (h : exportStep st a = Except.ok st2) :
    st2.1 = appendFlags st.1 a.attributes ∧ st2.2.length = st.2.length + 1 := by
  unfold exportStep at h
  repeat' split at h
  all_goals first
    | exact Except.noConfusion h
    | (cases h; exact ⟨rfl, by simp⟩)

end VotFormat

namespace VotFormat

/-! ## Whole-run bookkeeping -/

theorem sumOnes {α : Type} (l : List α) : (l.map (fun _ => (1 : Nat))).sum = l.length := by
  induction l with
  | nil => rfl
  | cons a rest ih => simp [ih, Nat.add_comm]

theorem vot_exporter_ok_inv {items : List DatasetItem} {tm : TaskMeta} {ar : ExportedArchive}
    (h : vot_exporter items tm = Except.ok ar) :
    ∃ acc gts, accumulate items = Except.ok (acc, gts) ∧
      exportArtifacts acc gts tm = Except.ok ar := by
  unfold vot_exporter at h
  cases ha : accumulate items with
  | error e =>
    rw [ha, exBindErr] at h
    exact Except.noConfusion h
  | ok st =>
    obtain ⟨acc, gts⟩ := st
    rw [ha, exBindOk] at h
    exact ⟨acc, gts, rfl, h⟩

theorem accumulate_gt_length {items : List DatasetItem}
    {acc : List (String × List Nat)} {gts : List GTLine}
    (h : accumulate items = Except.ok (acc, gts)) :
    gts.length = (items.map (fun it => it.annotations.length)).sum := by
  replace h : items.foldlM (fun st it => it.annotations.foldlM exportStep st) ([], [])
      = Except.ok (acc, gts) := h
  have hs := exceptFoldSum (fun st it => it.annotations.foldlM exportStep st)
    (fun st => st.2.length) (fun it => it.annotations.length)
    (fun s it s2 hit => by
      have hin : s2.2.length = s.2.length + (it.annotations.map (fun _ => (1 : Nat))).sum :=
        exceptFoldSum exportStep (fun st => st.2.length) (fun _ => 1)
          (fun s3 a s4 ha => (exportStep_ok_inv ha).2) it.annotations s s2 hit
      show s2.2.length = s.2.length + it.annotations.length
      rw [hin, sumOnes])
    items ([], []) (acc, gts) h
  simpa using hs

theorem accumulate_keys_nodup {items : List DatasetItem}
    {acc : List (String × List Nat)} {gts : List GTLine}
    (h : accumulate items = Except.ok (acc, gts)) :
    (acc.map Prod.fst).Nodup := by
  replace h : items.foldlM (fun st it => it.annotations.foldlM exportStep st) ([], [])
      = Except.ok (acc, gts) := h
  have hp := exceptFoldPres (fun st it => it.annotations.foldlM exportStep st)
    (fun st => (st.1.map Prod.fst).Nodup)
    (fun s it s2 hP hit =>
      exceptFoldPres exportStep (fun st => (st.1.map Prod.fst).Nodup)
        (fun s3 a s4 hP3 ha => by
          show (s4.1.map Prod.fst).Nodup
          rw [(exportStep_ok_inv ha).1]
          exact appendFlags_keys_nodup hP3)
        it.annotations s s2 hP hit)
    items ([], []) (acc, gts) (by simp) h
  exact hp

theorem accumulate_flag_counts {items : List DatasetItem}
    {acc : List (String × List Nat)} {gts : List GTLine}
    (h : accumulate items = Except.ok (acc, gts)) (k : String) :
    ((dictGet acc k).getD []).length
      = (items.map (fun it => (it.annotations.map
          (fun a => a.attributes.countP (fun p => p.1 == k))).sum)).sum := by
  replace h : items.foldlM (fun st it => it.annotations.foldlM exportStep st) ([], [])
      = Except.ok (acc, gts) := h
  have hs := exceptFoldSum (fun st it => it.annotations.foldlM exportStep st)
    (fun st => ((dictGet st.1 k).getD []).length)
    (fun it => (it.annotations.map (fun a => a.attributes.countP (fun p => p.1 == k))).sum)
    (fun s it s2 hit =>
      exceptFoldSum exportStep (fun st => ((dictGet st.1 k).getD []).length)
        (fun a => a.attributes.countP (fun p => p.1 == k))
        (fun s3 a s4 ha => by
          show ((dictGet s4.1 k).getD []).length = _
          rw [(exportStep_ok_inv ha).1]
          exact appendFlags_len a.attributes s3.1)
        it.annotations s s2 hit)
    items ([], []) (acc, gts) h
  simpa [dictGet] using hs

/-! ## Small bridges -/

theorem keyInKeys_iff {k : String} :
    keyInKeys k = true ↔ k ∈ attribute_mapping.map Prod.fst := by
  unfold keyInKeys
  exact List.elem_iff

theorem attrValB_of_dictGet {a : Ann} {k : String} {v : Bool}
    (h : dictGet a.attributes k = some v) : attrValB a k = v := by
  unfold attrValB
  rw [h]
  rfl

theorem toString_flagNat (b : Bool) : (toString (flagNat b) == "1") = b := by
  cases b <;> rfl

theorem flagNat_one_iff {b : Bool} : flagNat b = 1 ↔ b = true := by
  cases b <;> simp [flagNat]

/-- The 13 abbreviation codes are pairwise distinct across entries. -/
theorem attribute_mapping_code_inj :
    ∀ p1 ∈ attribute_mapping, ∀ p2 ∈ attribute_mapping, p1.2 = p2.2 → p1.1 = p2.1 := by
  decide

end VotFormat

namespace VotFormat

/-! ## Claim theorems -/

/-- C1: evaluated at a dataset item whose annotation's attributes never
include "full_occlusion", the exporter raises a TypeError (Python subscripts
`None` with `[-1]`) at the occlusion check, instead of treating the absent
flag as "not occluded" and completing. -/
theorem C1_absent_flag_error :
    vot_exporter [⟨[annNoFoc]⟩] metaW = Except.error "TypeError" := rfl

/-- C3 counterexample: a single frame holding two annotations makes the
exporter write two ground-truth lines, so the line count is not one per
frame. -/
theorem C3_two_annotations_one_frame :
    (vot_exporter [⟨[annP, annQ]⟩] metaW).map (fun ar => ar.groundtruth.length)
      = Except.ok 2 ∧
    ([(⟨[annP, annQ]⟩ : DatasetItem)] : List DatasetItem).length = 1 ∧
    (2 : Nat) ≠ 1 :=
  ⟨rfl, rfl, by decide⟩

/-- C3 amended: on success the exporter writes one `groundtruth.txt` line per
annotation — the total annotation count over all frames — and each surviving
`.tag` file holds one line per occurrence of its attribute among the
annotations' attribute dicts; these equal the frame count only when every
frame carries exactly one annotation bearing every attribute. -/
theorem C3_line_counts (items : List DatasetItem) (tm : TaskMeta) (ar : ExportedArchive)
    (h : vot_exporter items tm = Except.ok ar) :
    ar.groundtruth.length = (items.map (fun it => it.annotations.length)).sum ∧
    ∀ kv ∈ ar.tagFiles, kv.2.length
      = (items.map (fun it => (it.annotations.map
          (fun a => a.attributes.countP (fun p => p.1 == kv.1))).sum)).sum := by
  obtain ⟨acc, gts, hacc, hart⟩ := vot_exporter_ok_inv h
  obtain ⟨htag, hgt, _⟩ := exportArtifacts_ok_inv hart
  constructor
  · rw [hgt]
    exact accumulate_gt_length hacc
  · intro kv hkv
    rw [htag] at hkv
    have hmem : kv ∈ acc := List.mem_of_mem_filter hkv
    have hget : dictGet acc kv.1 = some kv.2 :=
      dictGet_of_mem_nodup (accumulate_keys_nodup hacc) (by
        obtain ⟨k, v⟩ := kv
        exact hmem)
    have hc := accumulate_flag_counts hacc kv.1
    rw [hget] at hc
    simpa using hc

/-- C3 witness: the concrete occluded single-annotation export. -/
theorem C3_line_counts_witness :
    arW3.groundtruth.length = (itemsW3.map (fun it => it.annotations.length)).sum ∧
    ∀ kv ∈ arW3.tagFiles, kv.2.length
      = (itemsW3.map (fun it => (it.annotations.map
          (fun a => a.attributes.countP (fun p => p.1 == kv.1))).sum)).sum :=
  C3_line_counts itemsW3 metaW arW3 rfl

/-- C4 counterexample: for the rectangle with corners (1,2) and (3,4) the
exporter emits the line 1,2,1,4,3,4,3,2, whose four corner pairs (1,2),
(1,4), (3,4), (3,2) are pairwise distinct — a true 4-corner polygon, not the
top-left and bottom-right corners repeated. -/
theorem C4_not_duplicated_corners :
    (vot_exporter [⟨[annP]⟩] metaW).map ExportedArchive.groundtruth
      = Except.ok [GTLine.fields [1, 2, 1, 4, 3, 4, 3, 2]] ∧
    [GTLine.fields [1, 2, 1, 4, 3, 4, 3, 2]] ≠ [GTLine.fields [1, 2, 1, 2, 3, 4, 3, 4]] ∧
    [GTLine.fields [1, 2, 1, 4, 3, 4, 3, 2]] ≠ [GTLine.fields [1, 2, 3, 4, 1, 2, 3, 4]] ∧
    [((1 : ℚ), (2 : ℚ)), (1, 4), (3, 4), (3, 2)].Pairwise (· ≠ ·) :=
  ⟨rfl, by decide, by decide, by decide⟩

/-- C4 amended: the non-occluded ground-truth line is
xtl,ytl,xtl,ybr,xbr,ybr,xbr,ytl — the rectangle corners top-left,
bottom-left, bottom-right, top-right in order, each input coordinate used
twice. -/
theorem C4_corner_layout (xtl ytl xbr ybr : ℚ) (al : List (String × Bool)) (tm : TaskMeta)
    (hnd : (al.map Prod.fst).Nodup)
    (hfoc : dictGet al "full_occlusion" = some false)
    (hov : dictGet al "out_of_view" = some false) :
    ∃ ar, vot_exporter [⟨[⟨xtl, ytl, xbr, ybr, al⟩]⟩] tm = Except.ok ar ∧
      ar.groundtruth = [GTLine.fields [xtl, ytl, xtl, ybr, xbr, ybr, xbr, ytl]] := by
  have hmemf : "full_occlusion" ∈ al.map Prod.fst :=
    List.mem_map.mpr ⟨("full_occlusion", false), dictGet_mem hfoc, rfl⟩
  have hmemo : "out_of_view" ∈ al.map Prod.fst :=
    List.mem_map.mpr ⟨("out_of_view", false), dictGet_mem hov, rfl⟩
  have hstep : exportStep ([], []) ⟨xtl, ytl, xbr, ybr, al⟩
      = Except.ok (flagState (al.map Prod.fst) [⟨xtl, ytl, xbr, ybr, al⟩],
          [] ++ [cornersLine ⟨xtl, ytl, xbr, ybr, al⟩]) :=
    exportStep_from_empty hnd hmemf hmemo
      (attrValB_of_dictGet hfoc) (attrValB_of_dictGet hov) []
  have hacc : accumulate [⟨[⟨xtl, ytl, xbr, ybr, al⟩]⟩]
      = Except.ok (flagState (al.map Prod.fst) [⟨xtl, ytl, xbr, ybr, al⟩],
          [cornersLine ⟨xtl, ytl, xbr, ybr, al⟩]) := by
    rw [show ([⟨[⟨xtl, ytl, xbr, ybr, al⟩]⟩] : List DatasetItem)
        = [(⟨xtl, ytl, xbr, ybr, al⟩ : Ann)].map (fun a => ⟨[a]⟩) from rfl]
    rw [accumulate_singletons]
    rw [show ([(⟨xtl, ytl, xbr, ybr, al⟩ : Ann)].foldlM exportStep ([], []))
        = exportStep ([], []) ⟨xtl, ytl, xbr, ybr, al⟩ >>= fun s2 =>
            ([] : List Ann).foldlM exportStep s2 from rfl]
    rw [hstep, exBindOk]
    rfl
  obtain ⟨ar, har, _, hgt⟩ :=
    exportArtifacts_ok (flagState (al.map Prod.fst) [⟨xtl, ytl, xbr, ybr, al⟩])
      [cornersLine ⟨xtl, ytl, xbr, ybr, al⟩] tm
  refine ⟨ar, ?_, ?_⟩
  · rw [vot_exporter_eq_ok_iff hacc]
    exact har
  · rw [hgt]
    rfl

/-- C4 witness: the concrete corner layout for (1,2)-(3,4). -/
theorem C4_corner_layout_witness :
    ∃ ar, vot_exporter
        [⟨[⟨1, 2, 3, 4, [("full_occlusion", false), ("out_of_view", false)]⟩]⟩] metaW
        = Except.ok ar ∧
      ar.groundtruth = [GTLine.fields [1, 2, 1, 4, 3, 4, 3, 2]] :=
  C4_corner_layout 1 2 3 4 [("full_occlusion", false), ("out_of_view", false)] metaW
    (by decide) (by decide) (by decide)

theorem vot_importer_some_eq {ar : ImportArchive} {lines : List GTLine}
    (h : ar.groundtruthFile = some lines) :
    vot_importer (some ar) = importLines ar.tagFiles 0 lines := by
  show (match ar.groundtruthFile with
        | none => (Except.error "AssertionError" : Except String (List LabeledShape))
        | some lines => importLines ar.tagFiles 0 lines) = _
  rw [h]

/-- C7: an archive that lacks `groundtruth.txt` makes the importer fail its
assert; it cannot complete silently with zero shapes. -/
theorem C7_missing_groundtruth_fails (ar : ImportArchive)
    (h : ar.groundtruthFile = none) :
    vot_importer (some ar) = Except.error "AssertionError" := by
  show (match ar.groundtruthFile with
        | none => (Except.error "AssertionError" : Except String (List LabeledShape))
        | some lines => importLines ar.tagFiles 0 lines) = _
  rw [h]

/-- C7 witness: a concrete archive holding only a tag file. -/
theorem C7_missing_groundtruth_fails_witness :
    vot_importer (some { groundtruthFile := none, tagFiles := [("camera_motion", ["1"])] })
      = Except.error "AssertionError" :=
  C7_missing_groundtruth_fails _ rfl

/-- C9: a stream that is not a valid zip archive makes the importer return
normally having added no shape — the `is_zipfile` guard has no failing
branch. -/
theorem C9_invalid_zip_silent : vot_importer none = Except.ok [] := rfl

/-- Shared characterization: an entry survives `_clear_attributes` iff its
flag list contains a 1 and its key is a key of `attribute_mapping`. -/
theorem clear_mem_iff (m : List (String × List Nat)) (k : String) (vs : List Nat) :
    (k, vs) ∈ _clear_attributes m ↔
      (k, vs) ∈ m ∧ 1 ∈ vs ∧ k ∈ attribute_mapping.map Prod.fst := by
  unfold _clear_attributes
  rw [List.mem_filter]
  constructor
  · rintro ⟨h1, h2⟩
    rw [List.any_eq_true] at h2
    obtain ⟨v, hv, hvp⟩ := h2
    rw [Bool.and_eq_true] at hvp
    obtain ⟨hv1, hv2⟩ := hvp
    rw [beq_iff_eq] at hv1
    subst hv1
    rw [keyInItems_false, Bool.or_false] at hv2
    exact ⟨h1, hv, keyInKeys_iff.mp hv2⟩
  · rintro ⟨h1, h2, h3⟩
    refine ⟨h1, ?_⟩
    rw [List.any_eq_true]
    refine ⟨1, h2, ?_⟩
    rw [Bool.and_eq_true]
    exact ⟨beq_iff_eq.mpr rfl, by rw [keyInKeys_iff.mpr h3, Bool.true_or]⟩

/-- C10: an entry survives `_clear_attributes` iff its flag list contains a 1
and its key is one of the 13 keys of `attribute_mapping`; the
`key in attribute_mapping.items()` disjunct never holds, so an attribute with
a non-VOT name is dropped even when some of its flags are 1. -/
theorem C10_survival_iff :
    (∀ (m : List (String × List Nat)) (k : String) (vs : List Nat),
      ((k, vs) ∈ _clear_attributes m ↔
        (k, vs) ∈ m ∧ 1 ∈ vs ∧ k ∈ attribute_mapping.map Prod.fst)) ∧
    (∀ s : String, keyInItems s = false) :=
  ⟨clear_mem_iff, keyInItems_false⟩

/-- C5: an attribute whose accumulated flag list never contains a 1 is removed
by `_clear_attributes`; no `.tag` file is written for it, and its code is
absent from the attribute code list joined into `info.txt`. -/
theorem C5_all_zero_dropped (acc : List (String × List Nat)) (gts : List GTLine)
    (tm : TaskMeta) (k : String) (ar : ExportedArchive)
    (hexp : exportArtifacts acc gts tm = Except.ok ar)
    (hflags : ∀ vs, (k, vs) ∈ acc → (1 : Nat) ∉ vs) :
    k ∉ (_clear_attributes acc).map Prod.fst ∧
    k ∉ ar.tagFiles.map Prod.fst ∧
    ∀ c, dictGet attribute_mapping k = some c → c ∉ ar.attrCodes := by
  have hclear : k ∉ (_clear_attributes acc).map Prod.fst := by
    intro hk
    rw [List.mem_map] at hk
    obtain ⟨⟨k2, vs⟩, hkv, hfst⟩ := hk
    cases hfst
    have h10 := ((clear_mem_iff acc k2 vs).mp hkv).2.1
    exact hflags vs ((clear_mem_iff acc k2 vs).mp hkv).1 h10
  obtain ⟨htag, _, hcodes⟩ := exportArtifacts_ok_inv hexp
  refine ⟨hclear, by rw [htag]; exact hclear, ?_⟩
  intro c hc hcmem
  obtain ⟨o, ho, hoc⟩ := mapM_ok_mem pyStrOfOpt _ _ hcodes c hcmem
  have ho2 : o = some c := by
    cases o with
    | none => exact Except.noConfusion hoc
    | some s =>
      unfold pyStrOfOpt at hoc
      cases hoc
      rfl
  subst ho2
  unfold _map_attributes at ho
  rw [List.mem_map] at ho
  obtain ⟨kv, hkv, hkveq⟩ := ho
  have hk2 : k = kv.1 :=
    attribute_mapping_code_inj (k, c) (dictGet_mem hc) (kv.1, c) (dictGet_mem hkveq) rfl
  exact hclear (hk2 ▸ List.mem_map.mpr ⟨kv, hkv, rfl⟩)

/-- C5 witness: the permanently-false "camera_motion" attribute of `accW5`. -/
theorem C5_all_zero_dropped_witness :
    "camera_motion" ∉ (_clear_attributes accW5).map Prod.fst ∧
    "camera_motion" ∉ arW5.tagFiles.map Prod.fst ∧
    ∀ c, dictGet attribute_mapping "camera_motion" = some c → c ∉ arW5.attrCodes :=
  C5_all_zero_dropped accW5 [] metaW "camera_motion" arW5 rfl (by
    intro vs h
    rcases List.mem_cons.mp h with h1 | h1
    · cases h1
      decide
    · rcases List.mem_cons.mp h1 with h2 | h2
      · have he : "camera_motion" = "full_occlusion" := congrArg Prod.fst h2
        exact absurd he (by decide)
      · simp at h2)

/-- C8: the importer never compares tag-file line counts with the
ground-truth line count; for an archive holding a tag file shorter than
`groundtruth.txt`, the per-frame lookup `value[x]` is out of bounds at every
frame index past that tag file's length, and the import as a whole cannot
succeed — the failure propagates to the caller. -/
theorem C8_short_tag_fails (ar : ImportArchive) (lines : List GTLine)
    (k : String) (tl : List String)
    (hgt : ar.groundtruthFile = some lines)
    (hmem : (k, tl) ∈ ar.tagFiles)
    (hshort : tl.length < lines.length) :
    (∀ x line, tl.length ≤ x → ∀ s, importLine ar.tagFiles x line ≠ Except.ok s) ∧
    (∀ out, vot_importer (some ar) ≠ Except.ok out) := by
  have hline : ∀ x line, tl.length ≤ x → ∀ s,
      importLine ar.tagFiles x line ≠ Except.ok s := by
    intro x line hx
    exact importLine_err_of_short_tag hmem hx line
  refine ⟨hline, ?_⟩
  intro out hok
  rw [vot_importer_some_eq hgt] at hok
  obtain ⟨hlen, hget⟩ := importLines_ok_get lines 0 out hok
  obtain ⟨line, hl⟩ : ∃ line, lines.get? tl.length = some line := by
    cases hg : lines.get? tl.length with
    | none =>
      rw [List.get?_eq_none] at hg
      omega
    | some l => exact ⟨l, rfl⟩
  obtain ⟨s, _, hs⟩ := hget tl.length line hl
  exact hline (0 + tl.length) line (by omega) s hs

/-- C8 witness: the archive `arC8W`, whose single tag file has one line
against a two-line ground-truth file. -/
theorem C8_short_tag_fails_witness :
    vot_importer (some arC8W) ≠ Except.ok [] :=
  (C8_short_tag_fails arC8W
    [GTLine.fields [1, 2, 1, 4, 3, 4, 3, 2], GTLine.nanLine]
    "camera_motion" ["1"] rfl (by decide) (by decide)).2 []

end VotFormat

namespace VotFormat

theorem tagLookup_mapM_inv {x : Nat} :
    ∀ (tags : List (String × List String)) (al : List (String × String)),
      tags.mapM (tagLookup x) = Except.ok al →
      al = tags.map (fun kv => (kv.1, kv.2.getD x "")) := by
  intro tags
  induction tags with
  | nil =>
    intro al h
    cases h
    rfl
  | cons kv rest ih =>
    intro al h
    rw [mapM_cons_eq] at h
    cases hf : tagLookup x kv with
    | error e =>
      rw [hf, exBindErr] at h
      exact Except.noConfusion h
    | ok b =>
      rw [hf, exBindOk] at h
      cases hr : rest.mapM (tagLookup x) with
      | error e =>
        rw [hr, exBindErr] at h
        exact Except.noConfusion h
      | ok bs =>
        rw [hr, exBindOk, exPure] at h
        cases h
        have hb : b = (kv.1, kv.2.getD x "") := by
          unfold tagLookup at hf
          cases hp : pyIndex kv.2 x with
          | error e =>
            rw [hp, exBindErr] at hf
            exact Except.noConfusion hf
          | ok v =>
            rw [hp, exBindOk] at hf
            cases hf
            have hv := pyIndex_eq_ok.mp hp
            rw [List.getD_eq_get?, hv]
            rfl
        rw [hb, ih bs hr]
        rfl

/-- C6: for every ground-truth line the importer processes, a line containing
"nan" yields the all-zero points [0,0,0,0]; a nan-free line of 8 fields
v0..v7 yields points [v0,v1,v4,v5]; and each attached attribute's boolean is
true iff the tag token at the same line index equals "1". -/
theorem C6_line_parsing (ar : ImportArchive) (lines : List GTLine) (out : List LabeledShape)
    (x : Nat) (line : GTLine)
    (hgt : ar.groundtruthFile = some lines)
    (hok : vot_importer (some ar) = Except.ok out)
    (hline : lines.get? x = some line) :
    ∃ s, out.get? x = some s ∧ s.frame = x ∧ s.type = "rectangle" ∧
      s.attributes = ar.tagFiles.map (fun kv => (kv.1, kv.2.getD x "" == "1")) ∧
      (line = GTLine.nanLine → s.points = [0, 0, 0, 0]) ∧
      (∀ v0 v1 v2 v3 v4 v5 v6 v7 : ℚ,
        line = GTLine.fields [v0, v1, v2, v3, v4, v5, v6, v7] →
        s.points = [v0, v1, v4, v5]) := by
  rw [vot_importer_some_eq hgt] at hok
  obtain ⟨hlen, hget⟩ := importLines_ok_get lines 0 out hok
  obtain ⟨s, hsget, hs⟩ := hget x line hline
  rw [Nat.zero_add] at hs
  refine ⟨s, hsget, ?_⟩
  unfold importLine at hs
  cases hm : ar.tagFiles.mapM (tagLookup x) with
  | error e =>
    rw [hm, exBindErr] at hs
    exact Except.noConfusion hs
  | ok al =>
    rw [hm, exBindOk] at hs
    have hal := tagLookup_mapM_inv ar.tagFiles al hm
    cases hp0 : pyIndex (parseGTLine line) 0 with
    | error e =>
      rw [hp0, exBindErr] at hs
      exact Except.noConfusion hs
    | ok p0 =>
      rw [hp0, exBindOk] at hs
      cases hp1 : pyIndex (parseGTLine line) 1 with
      | error e =>
        rw [hp1, exBindErr] at hs
        exact Except.noConfusion hs
      | ok p1 =>
        rw [hp1, exBindOk] at hs
        cases hp4 : pyIndex (parseGTLine line) 4 with
        | error e =>
          rw [hp4, exBindErr] at hs
          exact Except.noConfusion hs
        | ok p4 =>
          rw [hp4, exBindOk] at hs
          cases hp5 : pyIndex (parseGTLine line) 5 with
          | error e =>
            rw [hp5, exBindErr] at hs
            exact Except.noConfusion hs
          | ok p5 =>
            rw [hp5, exBindOk] at hs
            cases hs
            refine ⟨rfl, rfl, ?_, ?_, ?_⟩
            · show al.map (fun kv => (kv.1, kv.2 == "1")) = _
              rw [hal, List.map_map]
              rfl
            · intro hn
              subst hn
              have h0 := Except.ok.inj (show Except.ok (0 : ℚ) = Except.ok p0 from hp0)
              have h1 := Except.ok.inj (show Except.ok (0 : ℚ) = Except.ok p1 from hp1)
              have h4 := Except.ok.inj (show Except.ok (0 : ℚ) = Except.ok p4 from hp4)
              have h5 := Except.ok.inj (show Except.ok (0 : ℚ) = Except.ok p5 from hp5)
              show [p0, p1, p4, p5] = [0, 0, 0, 0]
              rw [← h0, ← h1, ← h4, ← h5]
            · intro v0 v1 v2 v3 v4 v5 v6 v7 hf
              subst hf
              have h0 := Except.ok.inj (show Except.ok v0 = Except.ok p0 from hp0)
              have h1 := Except.ok.inj (show Except.ok v1 = Except.ok p1 from hp1)
              have h4 := Except.ok.inj (show Except.ok v4 = Except.ok p4 from hp4)
              have h5 := Except.ok.inj (show Except.ok v5 = Except.ok p5 from hp5)
              show [p0, p1, p4, p5] = [v0, v1, v4, v5]
              rw [← h0, ← h1, ← h4, ← h5]

/-- C6 witness: the spec's example line 1,2,3,2,3,4,1,4 with one aligned tag
file. -/
theorem C6_line_parsing_witness :
    ∃ s, outC6W.get? 0 = some s ∧ s.frame = 0 ∧ s.type = "rectangle" ∧
      s.attributes = arC6W.tagFiles.map (fun kv => (kv.1, kv.2.getD 0 "" == "1")) ∧
      (GTLine.fields [1, 2, 3, 2, 3, 4, 1, 4] = GTLine.nanLine → s.points = [0, 0, 0, 0]) ∧
      (∀ v0 v1 v2 v3 v4 v5 v6 v7 : ℚ,
        GTLine.fields [1, 2, 3, 2, 3, 4, 1, 4]
          = GTLine.fields [v0, v1, v2, v3, v4, v5, v6, v7] →
        s.points = [v0, v1, v4, v5]) :=
  C6_line_parsing arC6W [GTLine.fields [1, 2, 3, 2, 3, 4, 1, 4]] outC6W 0
    (GTLine.fields [1, 2, 3, 2, 3, 4, 1, 4]) rfl rfl rfl

end VotFormat

namespace VotFormat

/-- C2 counterexample: the non-VOT attribute "custom" is true on its only
frame (so not permanently false), yet the round trip loses it — the
reimported shape carries no attributes at all. -/
theorem C2_nonvot_attribute_lost :
    dictGet annCustom.attributes "custom" = some true ∧
    (vot_exporter [⟨[annCustom]⟩] metaW).map
        (fun ar => vot_importer (some (archiveToImport ar)))
      = Except.ok (Except.ok
          [{ type := "rectangle", points := [1, 2, 3, 4], occluded := false,
             attributes := [], label := "object", source := "manual", frame := 0 }]) ∧
    dictGet ([] : List (String × Bool)) "custom" = none :=
  ⟨rfl, rfl, rfl⟩

/-- C2 amended: when every frame holds exactly one annotation, all
annotations carry the same ordered attribute key set `K` (which includes the
two occlusion keys, both false everywhere), exporting and reimporting
reproduces the frame count, the exact rectangle coordinates, and the boolean
value of every attribute that is a VOT attribute name and is not permanently
false. -/
theorem C2_round_trip (K : List String) (anns : List Ann) (tm : TaskMeta)
    (hnd : K.Nodup) (hfoc : "full_occlusion" ∈ K) (hov : "out_of_view" ∈ K)
    (hkeys : ∀ a ∈ anns, a.attributes.map Prod.fst = K)
    (hfocv : ∀ a ∈ anns, dictGet a.attributes "full_occlusion" = some false)
    (hovv : ∀ a ∈ anns, dictGet a.attributes "out_of_view" = some false) :
    ∃ ar out,
      vot_exporter (anns.map (fun a => ⟨[a]⟩)) tm = Except.ok ar ∧
      vot_importer (some (archiveToImport ar)) = Except.ok out ∧
      out.length = anns.length ∧
      ∀ i a, anns.get? i = some a →
        ∃ s, out.get? i = some s ∧ s.frame = i ∧
          s.points = [a.xtl, a.ytl, a.xbr, a.ybr] ∧
          ∀ k, keyInKeys k = true → (∃ b ∈ anns, dictGet b.attributes k = some true) →
            dictGet s.attributes k = dictGet a.attributes k := by
  cases anns with
  | nil =>
    obtain ⟨ar, har, htag, hgt⟩ := exportArtifacts_ok [] [] tm
    refine ⟨ar, [], ?_, ?_, rfl, ?_⟩
    · show vot_exporter [] tm = Except.ok ar
      rw [vot_exporter_eq_ok_iff (show accumulate [] = Except.ok ([], []) from rfl)]
      exact har
    · rw [vot_importer_some_eq
        (show (archiveToImport ar).groundtruthFile = some ar.groundtruth from rfl)]
      rw [show ar.groundtruth = ([] : List GTLine) from hgt]
      rfl
    · intro i a h
      simp at h
  | cons a0 rest =>
    have hK0 : a0.attributes.map Prod.fst = K := hkeys a0 (List.mem_cons_self _ _)
    have hstep0 : exportStep ([], []) a0
        = Except.ok (flagState K [a0], [] ++ [cornersLine a0]) := by
      have h := exportStep_from_empty (a := a0)
        (by rw [hK0]; exact hnd) (by rw [hK0]; exact hfoc) (by rw [hK0]; exact hov)
        (attrValB_of_dictGet (hfocv a0 (List.mem_cons_self _ _)))
        (attrValB_of_dictGet (hovv a0 (List.mem_cons_self _ _))) []
      rw [hK0] at h
      exact h
    have hfold : rest.foldlM exportStep (flagState K [a0], [cornersLine a0])
        = Except.ok (flagState K ([a0] ++ rest),
            [cornersLine a0] ++ rest.map cornersLine) :=
      exportFold_flagState hnd hfoc hov rest [a0] [cornersLine a0]
        (fun b hb => ⟨hkeys b (List.mem_cons_of_mem _ hb),
          attrValB_of_dictGet (hfocv b (List.mem_cons_of_mem _ hb)),
          attrValB_of_dictGet (hovv b (List.mem_cons_of_mem _ hb))⟩)
    have hacc : accumulate ((a0 :: rest).map (fun a => ⟨[a]⟩))
        = Except.ok (flagState K (a0 :: rest), (a0 :: rest).map cornersLine) := by
      rw [accumulate_singletons]
      rw [show ((a0 :: rest).foldlM exportStep ([], []))
          = exportStep ([], []) a0 >>= fun s2 => rest.foldlM exportStep s2 from rfl]
      rw [hstep0, exBindOk]
      exact hfold
    obtain ⟨ar, har, htag, hgt⟩ :=
      exportArtifacts_ok (flagState K (a0 :: rest)) ((a0 :: rest).map cornersLine) tm
    have hexp : vot_exporter ((a0 :: rest).map (fun a => ⟨[a]⟩)) tm = Except.ok ar := by
      rw [vot_exporter_eq_ok_iff hacc]
      exact har
    have htags : (archiveToImport ar).tagFiles
        = (K.filter (fun k => ((a0 :: rest).map (fun a => flagNat (attrValB a k))).any
              (fun v => v == 1 && (keyInKeys k || keyInItems k)))).map
            (fun k => (k, ((a0 :: rest).map (fun a => flagNat (attrValB a k))).map toString)) := by
      show ar.tagFiles.map (fun kv => (kv.1, kv.2.map toString)) = _
      rw [htag, clear_flagState, List.map_map]
      rfl
    have htlen : ∀ kv ∈ (archiveToImport ar).tagFiles, kv.2.length = (a0 :: rest).length := by
      intro kv hkv
      rw [htags, List.mem_map] at hkv
      obtain ⟨k, hk, rfl⟩ := hkv
      simp
    have hgtfile : (archiveToImport ar).groundtruthFile
        = some ((a0 :: rest).map cornersLine) := by
      show some ar.groundtruth = _
      rw [hgt]
    obtain ⟨out, hout⟩ := importLines_all_ok
      (archiveToImport ar).tagFiles ((a0 :: rest).map cornersLine) 0
      (fun i line hl => by
        rw [List.get?_map] at hl
        cases hai : (a0 :: rest).get? i with
        | none =>
          rw [hai] at hl
          exact Option.noConfusion hl
        | some a =>
          rw [hai] at hl
          cases hl
          obtain ⟨hlt, _⟩ := List.get?_eq_some.mp hai
          refine ⟨_, importLine_ok (fun kv hkv => ?_)
            (by rw [parseGTLine_length_corners]; omega)⟩
          rw [htlen kv hkv]
          omega)
    have himp : vot_importer (some (archiveToImport ar)) = Except.ok out := by
      rw [vot_importer_some_eq hgtfile]
      exact hout
    obtain ⟨hlen, hget⟩ := importLines_ok_get _ 0 out hout
    refine ⟨ar, out, hexp, himp, by rw [hlen, List.length_map], ?_⟩
    intro i a hai
    have hl : ((a0 :: rest).map cornersLine).get? i = some (cornersLine a) := by
      rw [List.get?_map, hai]
      rfl
    obtain ⟨s, hsget, hs⟩ := hget i (cornersLine a) hl
    obtain ⟨hlt, _⟩ := List.get?_eq_some.mp hai
    rw [Nat.zero_add] at hs
    rw [importLine_ok (fun kv hkv => by rw [htlen kv hkv]; exact hlt)
      (by rw [parseGTLine_length_corners]; omega)] at hs
    have hseq := Except.ok.inj hs
    refine ⟨s, hsget, by rw [← hseq], by rw [← hseq]; rfl, ?_⟩
    intro k hkk hsome
    obtain ⟨b, hb, hbv⟩ := hsome
    have hbK : k ∈ K := by
      rw [← hkeys b hb]
      exact List.mem_map.mpr ⟨(k, true), dictGet_mem hbv, rfl⟩
    have hq : k ∈ K.filter (fun k => ((a0 :: rest).map (fun a => flagNat (attrValB a k))).any
        (fun v => v == 1 && (keyInKeys k || keyInItems k))) := by
      rw [List.mem_filter]
      refine ⟨hbK, ?_⟩
      rw [List.any_eq_true]
      refine ⟨flagNat (attrValB b k), List.mem_map.mpr ⟨b, hb, rfl⟩, ?_⟩
      rw [attrValB_of_dictGet hbv]
      rw [show flagNat true = 1 from rfl]
      rw [hkk]
      rfl
    rw [← hseq]
    show dictGet ((archiveToImport ar).tagFiles.map
        (fun kv => (kv.1, kv.2.getD i "" == "1"))) k = dictGet a.attributes k
    rw [htags, List.map_map]
    rw [show ((fun kv => (kv.1, kv.2.getD i "" == "1")) ∘
          (fun k => (k, ((a0 :: rest).map (fun a => flagNat (attrValB a k))).map toString)))
        = (fun k => (k, (((a0 :: rest).map (fun a => flagNat (attrValB a k))).map
            toString).getD i "" == "1")) from rfl]
    rw [dictGet_keyMap, if_pos hq]
    have hmem_a : a ∈ a0 :: rest := List.get?_mem hai
    obtain ⟨v, hv⟩ := dictGet_isSome_of_mem_keys
      (m := a.attributes) (k := k) (by rw [hkeys a hmem_a]; exact hbK)
    rw [hv]
    have hgd : (((a0 :: rest).map (fun a2 => flagNat (attrValB a2 k))).map toString).getD i ""
        = toString (flagNat (attrValB a k)) := by
      rw [List.getD_eq_get?, List.get?_map, List.get?_map, hai]
      rfl
    rw [hgd, toString_flagNat, attrValB_of_dictGet hv]

/-- C2 witness: two uniformly-keyed frames with "camera_motion" true on the
first. -/
theorem C2_round_trip_witness :
    ∃ ar out,
      vot_exporter (annsW2.map (fun a => ⟨[a]⟩)) metaW = Except.ok ar ∧
      vot_importer (some (archiveToImport ar)) = Except.ok out ∧
      out.length = annsW2.length ∧
      ∀ i a, annsW2.get? i = some a →
        ∃ s, out.get? i = some s ∧ s.frame = i ∧
          s.points = [a.xtl, a.ytl, a.xbr, a.ybr] ∧
          ∀ k, keyInKeys k = true → (∃ b ∈ annsW2, dictGet b.attributes k = some true) →
            dictGet s.attributes k = dictGet a.attributes k :=
  C2_round_trip ["full_occlusion", "out_of_view", "camera_motion"] annsW2 metaW
    (by decide) (by decide) (by decide) (by decide) (by decide) (by decide)

end VotFormat
